import Mathlib

/-!
Verification development for the WhatsappWorkshop repository: a shallow
embedding of the gateway router (src/gateway/server.js), the shard node
(shard-core), and the replication manager, with theorems settling the
frozen claims about shard assignment, conversation merging, failover,
cache invalidation, websocket dispatch, and replication upserts.
-/

namespace WhatsappWorkshop

/-- A message row as stored in the messages table and carried in JSON
responses.  `created_at` is modelled as a natural-number timestamp. -/
structure Message where
  id : String
  from_user_id : String
  to_user_id : String
  content : String
  created_at : Nat
  shard_id : Nat
deriving DecidableEq, Repr

/-- A shard descriptor from the gateway's SHARDS configuration table. -/
structure ShardDesc where
  id : Nat
  primary : String
  backup : String
deriving DecidableEq, Repr

/-- The gateway's static shard configuration (src/gateway/server.js). -/
def SHARDS : List ShardDesc :=
  [⟨1, "http://shard-1:4001", "http://shard-1-backup:4001"⟩,
   ⟨2, "http://shard-2:4002", "http://shard-2-backup:4002"⟩,
   ⟨3, "http://shard-3:4003", "http://shard-3-backup:4003"⟩]

/-- Value of a list of decimal digit characters, used to show the decimal
rendering of a natural number is injective. -/
def digitsVal (l : List Char) : Nat :=
  l.foldl (fun acc c => acc * 10 + (c.toNat - 48)) 0

/-- Decimal digit character for a value below ten. -/
def digitChar (n : Nat) : Char := Char.ofNat (48 + n)

/-- Fuel-driven digit expansion; with fuel above the value it produces the
decimal digits of the value, most significant first. -/
def natDigitsGo : Nat → Nat → List Char
  | 0, _ => []
  | fuel + 1, n =>
    if n < 10 then [digitChar n]
    else natDigitsGo fuel (n / 10) ++ [digitChar (n % 10)]

/-- Decimal digit characters of a natural number (most significant first),
modelling how JavaScript renders a number into a template string. -/
def natDigits (n : Nat) : List Char := natDigitsGo (n + 1) n

/-- Decimal rendering of a natural number as a string. -/
def natStr (n : Nat) : String := String.mk (natDigits n)

/-- Model of JavaScript parseInt on a string: an optional sign followed by
the longest run of leading decimal digits; NaN (no digits) is `none`. -/
def parseIntJS (s : String) : Option Int :=
  match s.data with
  | [] => none
  | c :: cs =>
    let digits :=
      if c = '-' ∨ c = '+' then cs.takeWhile Char.isDigit
      else (c :: cs).takeWhile Char.isDigit
    if digits.isEmpty then none
    else
      let v : Int := Int.ofNat (digitsVal digits)
      if c = '-' then some (-v) else some v

/-- Shard id computed by getShardForUser:
(Math.abs(parseInt(userId)) % SHARDS.length) || SHARDS.length.
When parseInt yields NaN, NaN % 3 is NaN, which is falsy, so the || fallback
produces SHARDS.length. -/
def shardIdOf (s : String) : Nat :=
  match parseIntJS s with
  | some n =>
    let r := n.natAbs % SHARDS.length
    if r = 0 then SHARDS.length else r
  | none => SHARDS.length

/-- getShardForUser from src/gateway/server.js: compute the shard id and
look the descriptor up in the SHARDS table. -/
def getShardForUser (s : String) : Option ShardDesc :=
  SHARDS.find? (fun sh => sh.id == shardIdOf s)

/-- C1: for every user id that parses as an integer, getShardForUser
deterministically returns the descriptor of shard abs(id) mod 3, with a
result of 0 mapped to 3, so the shard id is always in [1, 3]. -/
theorem getShardForUser_total_inRange (s : String) (n : Int)
    (h : parseIntJS s = some n) :
    getShardForUser s = getShardForUser s ∧
    ∃ sh, getShardForUser s = some sh ∧
      sh.id = (if n.natAbs % 3 = 0 then 3 else n.natAbs % 3) ∧
      1 ≤ sh.id ∧ sh.id ≤ 3 := by
  refine ⟨rfl, ?_⟩
  have hlen : SHARDS.length = 3 := rfl
  have hid : shardIdOf s = (if n.natAbs % 3 = 0 then 3 else n.natAbs % 3) := by
    simp [shardIdOf, h, hlen]
  have hlt : n.natAbs % 3 < 3 := Nat.mod_lt _ (by omega)
  have hcases : n.natAbs % 3 = 0 ∨ n.natAbs % 3 = 1 ∨ n.natAbs % 3 = 2 := by omega
  rcases hcases with h0 | h1 | h2
  · refine ⟨⟨3, "http://shard-3:4003", "http://shard-3-backup:4003"⟩, ?_, by simp [h0], by simp, by simp⟩
    simp [getShardForUser, hid, h0, SHARDS]
  · refine ⟨⟨1, "http://shard-1:4001", "http://shard-1-backup:4001"⟩, ?_, by simp [h1], by simp, by simp⟩
    simp [getShardForUser, hid, h1, SHARDS]
  · refine ⟨⟨2, "http://shard-2:4002", "http://shard-2-backup:4002"⟩, ?_, by simp [h2], by simp, by simp⟩
    simp [getShardForUser, hid, h2, SHARDS]

/-- Witness for C1 at the concrete user id "4". -/
theorem getShardForUser_total_inRange_witness :
    getShardForUser "4" = getShardForUser "4" ∧
    ∃ sh, getShardForUser "4" = some sh ∧
      sh.id = (if (4 : Int).natAbs % 3 = 0 then 3 else (4 : Int).natAbs % 3) ∧
      1 ≤ sh.id ∧ sh.id ≤ 3 :=
  getShardForUser_total_inRange "4" 4 (by decide)

/-- Stable insertion of a message into a list sorted ascending by
created_at, modelling the gateway's stable ascending timestamp sort. -/
def insertByTime (m : Message) : List Message → List Message
  | [] => [m]
  | x :: xs =>
    if m.created_at ≤ x.created_at then m :: x :: xs
    else x :: insertByTime m xs

/-- Stable sort of messages ascending by created_at, modelling
allMessages.sort((a, b) => new Date(a.created_at) - new Date(b.created_at)). -/
def sortByTime : List Message → List Message
  | [] => []
  | x :: xs => insertByTime x (sortByTime xs)

/-- The gateway's dedup key: the template string
from_user_id-to_user_id-created_at. -/
def msgKey (m : Message) : String :=
  m.from_user_id ++ "-" ++ m.to_user_id ++ "-" ++ natStr m.created_at

/-- Dedup loop of the conversation merge: keep a message only if its key
has not been seen, first occurrence wins. -/
def dedupAux (seen : List String) : List Message → List Message
  | [] => []
  | m :: ms =>
    if msgKey m ∈ seen then dedupAux seen ms
    else m :: dedupAux (msgKey m :: seen) ms

/-- Remove duplicate messages by the gateway's dedup key. -/
def dedupMessages (l : List Message) : List Message := dedupAux [] l

/-- The gateway's conversation merge: concatenate the sender-shard result
with the other shard's result, stable sort ascending by timestamp, then
deduplicate by the template-string key. -/
def mergeConversations (l1 l2 : List Message) : List Message :=
  dedupMessages (sortByTime (l1 ++ l2))

/-- Boolean test that a message has the same sender, recipient and
timestamp as another. -/
def sameTriple (m x : Message) : Bool :=
  x.from_user_id == m.from_user_id && x.to_user_id == m.to_user_id &&
    x.created_at == m.created_at

/-- Message shared by both shard results in the C2 counterexample. -/
def c2Shared : Message := ⟨"a", "1-2", "3", "x", 5, 1⟩

/-- Message with a different sender and recipient whose hyphen-joined
dedup key collides with the key of c2Shared. -/
def c2Collider : Message := ⟨"b", "1", "2-3", "y", 5, 1⟩

/-- C2 counterexample: the dedup key is the hyphen-joined template string,
not the composite triple, so with user ids containing hyphens two lists
sharing a message can merge to zero copies of it: both input lists contain
c2Shared, yet the merged output contains no message with its sender,
recipient and timestamp (the colliding first occurrence survives instead). -/
theorem mergeConversations_dedup_key_collision :
    c2Shared ∈ [c2Collider, c2Shared] ∧ c2Shared ∈ [c2Shared] ∧
    msgKey c2Collider = msgKey c2Shared ∧
    sameTriple c2Shared c2Collider = false ∧
    (mergeConversations [c2Collider, c2Shared] [c2Shared]).countP
      (sameTriple c2Shared) = 0 := by
  decide

/-- Ascending timestamp order used by the gateway's sort. -/
def timeLe (a b : Message) : Prop := a.created_at ≤ b.created_at

/-- Inserting a message counts like consing it, for any predicate. -/
theorem countP_insertByTime (p : Message → Bool) (m : Message) :
    ∀ l : List Message, (insertByTime m l).countP p = (m :: l).countP p := by
  intro l
  induction l with
  | nil => rfl
  | cons x xs ih =>
    unfold insertByTime
    by_cases h : m.created_at ≤ x.created_at
    · simp [h]
    · simp only [h, if_false, List.countP_cons, ih]
      omega

/-- Sorting preserves predicate counts. -/
theorem countP_sortByTime (p : Message → Bool) :
    ∀ l : List Message, (sortByTime l).countP p = l.countP p := by
  intro l
  induction l with
  | nil => rfl
  | cons x xs ih =>
    simp only [sortByTime, countP_insertByTime, List.countP_cons, ih]

/-- Membership in an insertion. -/
theorem mem_insertByTime {x m : Message} :
    ∀ {l : List Message}, x ∈ insertByTime m l ↔ x ∈ m :: l := by
  intro l
  induction l with
  | nil => simp [insertByTime]
  | cons y ys ih =>
    unfold insertByTime
    by_cases h : m.created_at ≤ y.created_at
    · simp [h]
    · simp only [h, if_false, List.mem_cons, ih]
      tauto

/-- Sorting preserves membership. -/
theorem mem_sortByTime {x : Message} :
    ∀ {l : List Message}, x ∈ sortByTime l ↔ x ∈ l := by
  intro l
  induction l with
  | nil => simp [sortByTime]
  | cons y ys ih =>
    simp only [sortByTime, mem_insertByTime, List.mem_cons, ih]

/-- Insertion into an ascending list stays ascending. -/
theorem pairwise_insertByTime (m : Message) :
    ∀ l : List Message, l.Pairwise timeLe → (insertByTime m l).Pairwise timeLe := by
  intro l
  induction l with
  | nil => intro _; simp [insertByTime, timeLe]
  | cons x xs ih =>
    intro h
    rw [List.pairwise_cons] at h
    unfold insertByTime
    by_cases hle : m.created_at ≤ x.created_at
    · simp only [hle, if_true]
      rw [List.pairwise_cons]
      refine ⟨?_, by rw [List.pairwise_cons]; exact h⟩
      intro y hy
      rcases List.mem_cons.mp hy with rfl | hy'
      · exact hle
      · exact Nat.le_trans hle (h.1 y hy')
    · simp only [hle, if_false]
      rw [List.pairwise_cons]
      refine ⟨?_, ih h.2⟩
      intro y hy
      rcases List.mem_cons.mp (mem_insertByTime.mp hy) with rfl | hy'
      · exact Nat.le_of_lt (Nat.lt_of_not_le hle)
      · exact h.1 y hy'

/-- The gateway sort produces an ascending list. -/
theorem pairwise_sortByTime : ∀ l : List Message, (sortByTime l).Pairwise timeLe := by
  intro l
  induction l with
  | nil => simp [sortByTime]
  | cons x xs ih => exact pairwise_insertByTime x _ ih

/-- Sorting an already ascending list is the identity. -/
theorem sortByTime_eq_self : ∀ l : List Message, l.Pairwise timeLe → sortByTime l = l := by
  intro l
  induction l with
  | nil => intro _; rfl
  | cons x xs ih =>
    intro h
    rw [List.pairwise_cons] at h
    rw [sortByTime, ih h.2]
    cases xs with
    | nil => rfl
    | cons y ys =>
      have : x.created_at ≤ y.created_at := h.1 y (List.mem_cons_self y ys)
      simp [insertByTime, this]

/-- The dedup loop yields a sublist of its input. -/
theorem dedupAux_sublist : ∀ (seen : List String) (l : List Message),
    (dedupAux seen l).Sublist l := by
  intro seen l
  induction l generalizing seen with
  | nil => simp [dedupAux]
  | cons m ms ih =>
    unfold dedupAux
    by_cases h : msgKey m ∈ seen
    · simp only [h, if_true]
      exact (ih seen).cons m
    · simp only [h, if_false]
      exact (ih (msgKey m :: seen)).cons₂ m

/-- Count of messages with a given dedup key in the dedup output: zero if
the key was already seen, otherwise one exactly when the key occurs. -/
theorem dedupAux_countP_key (k : String) :
    ∀ (l : List Message) (seen : List String),
    (dedupAux seen l).countP (fun x => msgKey x == k) =
      if k ∈ seen then 0 else if l.any (fun x => msgKey x == k) then 1 else 0 := by
  intro l
  induction l with
  | nil =>
    intro seen
    simp [dedupAux]
  | cons m ms ih =>
    intro seen
    unfold dedupAux
    by_cases hseen : msgKey m ∈ seen
    · simp only [hseen, if_true]
      rw [ih seen]
      by_cases hk : k ∈ seen
      · simp [hk]
      · have hmk : ¬ (msgKey m == k) = true := by
          intro hb
          exact hk (beq_iff_eq.mp hb ▸ hseen)
        simp [hk, List.any_cons, hmk]
    · simp only [hseen, if_false]
      rw [List.countP_cons, ih (msgKey m :: seen)]
      by_cases hk : k = msgKey m
      · subst hk
        simp [hseen, List.any_cons]
      · have hmk : ¬ (msgKey m == k) = true := by
          intro hb
          exact hk (beq_iff_eq.mp hb).symm
        have hks : k ∈ msgKey m :: seen ↔ k ∈ seen := by
          simp [List.mem_cons, hk]
        rw [if_congr hks rfl rfl]
        simp [List.any_cons, hmk]

/-- Every key in the dedup output avoids the seen set. -/
theorem dedupAux_key_not_seen : ∀ (l : List Message) (seen : List String),
    ∀ x ∈ dedupAux seen l, msgKey x ∉ seen := by
  intro l
  induction l with
  | nil => intro seen x hx; simp [dedupAux] at hx
  | cons m ms ih =>
    intro seen x hx
    unfold dedupAux at hx
    by_cases h : msgKey m ∈ seen
    · simp only [h, if_true] at hx
      exact ih seen x hx
    · simp only [h, if_false] at hx
      rcases List.mem_cons.mp hx with rfl | hx'
      · exact h
      · intro hs
        exact ih (msgKey m :: seen) x hx' (List.mem_cons_of_mem _ hs)

/-- The dedup output has pairwise distinct keys. -/
theorem dedupAux_keys_pairwise : ∀ (l : List Message) (seen : List String),
    (dedupAux seen l).Pairwise (fun a b => msgKey a ≠ msgKey b) := by
  intro l
  induction l with
  | nil => intro seen; simp [dedupAux]
  | cons m ms ih =>
    intro seen
    unfold dedupAux
    by_cases h : msgKey m ∈ seen
    · simp only [h, if_true]
      exact ih seen
    · simp only [h, if_false]
      rw [List.pairwise_cons]
      refine ⟨?_, ih (msgKey m :: seen)⟩
      intro y hy hkey
      exact dedupAux_key_not_seen ms (msgKey m :: seen) y hy
        (hkey ▸ List.mem_cons_self _ _)

/-- Dedup is the identity on key-distinct lists whose keys avoid seen. -/
theorem dedupAux_eq_self : ∀ (l : List Message) (seen : List String),
    l.Pairwise (fun a b => msgKey a ≠ msgKey b) →
    (∀ x ∈ l, msgKey x ∉ seen) → dedupAux seen l = l := by
  intro l
  induction l with
  | nil => intro seen _ _; rfl
  | cons m ms ih =>
    intro seen hnod hns
    rw [List.pairwise_cons] at hnod
    have hm : msgKey m ∉ seen := hns m (List.mem_cons_self m ms)
    unfold dedupAux
    simp only [hm, if_false]
    rw [ih (msgKey m :: seen) hnod.2]
    intro x hx
    rw [List.mem_cons]
    push_neg
    exact ⟨fun he => hnod.1 x hx he.symm, hns x (List.mem_cons_of_mem m hx)⟩

/-- The digit character of a value below ten evaluates back to it. -/
theorem digitChar_toNat (n : Nat) (h : n < 10) : (digitChar n).toNat = 48 + n := by
  interval_cases n <;> decide

/-- The digit character of a value below ten is a decimal digit. -/
theorem digitChar_isDigit (n : Nat) (h : n < 10) : (digitChar n).isDigit = true := by
  interval_cases n <;> decide

/-- Appending a digit multiplies the accumulated value by ten. -/
theorem digitsVal_append_single (l : List Char) (c : Char) :
    digitsVal (l ++ [c]) = digitsVal l * 10 + (c.toNat - 48) := by
  simp [digitsVal, List.foldl_append]

/-- With enough fuel, digit expansion round-trips through evaluation. -/
theorem digitsVal_natDigitsGo : ∀ (fuel n : Nat), n < fuel →
    digitsVal (natDigitsGo fuel n) = n := by
  intro fuel
  induction fuel with
  | zero => intro n h; omega
  | succ f ih =>
    intro n h
    unfold natDigitsGo
    by_cases h10 : n < 10
    · simp only [h10, if_true]
      simp [digitsVal, digitChar_toNat n h10]
    · simp only [h10, if_false]
      rw [digitsVal_append_single, ih (n / 10) (by omega),
        digitChar_toNat (n % 10) (Nat.mod_lt _ (by omega))]
      omega

/-- Decimal rendering of naturals is injective. -/
theorem natDigits_inj {a b : Nat} (h : natDigits a = natDigits b) : a = b := by
  have ha : digitsVal (natDigits a) = a :=
    digitsVal_natDigitsGo (a + 1) a (Nat.lt_succ_self a)
  have hb : digitsVal (natDigits b) = b :=
    digitsVal_natDigitsGo (b + 1) b (Nat.lt_succ_self b)
  rw [← ha, h, hb]

/-- Every character produced by digit expansion is a decimal digit. -/
theorem natDigitsGo_isDigit : ∀ (fuel n : Nat), n < fuel →
    ∀ c ∈ natDigitsGo fuel n, c.isDigit = true := by
  intro fuel
  induction fuel with
  | zero => intro n h; omega
  | succ f ih =>
    intro n h c hc
    unfold natDigitsGo at hc
    by_cases h10 : n < 10
    · simp only [h10, if_true, List.mem_singleton] at hc
      exact hc ▸ digitChar_isDigit n h10
    · simp only [h10, if_false, List.mem_append, List.mem_singleton] at hc
      rcases hc with hc | rfl
      · exact ih (n / 10) (by omega) c hc
      · exact digitChar_isDigit (n % 10) (Nat.mod_lt _ (by omega))

/-- A non-digit delimiter never occurs in a rendered natural. -/
theorem delim_not_mem_natDigits (d : Char) (hd : d.isDigit = false) (n : Nat) :
    d ∉ natDigits n := by
  intro hmem
  have := natDigitsGo_isDigit (n + 1) n (Nat.lt_succ_self n) d hmem
  rw [hd] at this
  exact Bool.false_ne_true this

/-- Splitting on the first occurrence of a delimiter absent from both
leading segments determines both sides of the concatenation. -/
theorem delim_eq_split (d : Char) : ∀ (u1 u2 v1 v2 : List Char),
    d ∉ u1 → d ∉ u2 → u1 ++ d :: v1 = u2 ++ d :: v2 → u1 = u2 ∧ v1 = v2 := by
  intro u1
  induction u1 with
  | nil =>
    intro u2 v1 v2 _ hu2 h
    cases u2 with
    | nil => simpa using h
    | cons b bs =>
      simp only [List.nil_append, List.cons_append, List.cons.injEq] at h
      exact absurd (h.1 ▸ List.mem_cons_self b bs) (h.1 ▸ hu2)
  | cons a as ih =>
    intro u2 v1 v2 hu1 hu2 h
    cases u2 with
    | nil =>
      simp only [List.cons_append, List.nil_append, List.cons.injEq] at h
      exact absurd (h.1 ▸ List.mem_cons_self a as) (h.1 ▸ hu1)
    | cons b bs =>
      simp only [List.cons_append, List.cons.injEq] at h
      obtain ⟨rfl, h2⟩ := h
      have := ih bs v1 v2 (fun hm => hu1 (List.mem_cons_of_mem a hm))
        (fun hm => hu2 (List.mem_cons_of_mem a hm)) h2
      exact ⟨by rw [this.1], this.2⟩

/-- Character data of the gateway's dedup key. -/
theorem msgKey_data (m : Message) :
    (msgKey m).data =
      m.from_user_id.data ++ '-' :: (m.to_user_id.data ++ '-' :: natDigits m.created_at) := by
  simp [msgKey, String.data_append, natStr]

/-- For messages whose sender and recipient ids contain no hyphen, key
equality coincides with equality of sender, recipient and timestamp. -/
theorem msgKey_eq_iff_triple (x m : Message)
    (hx : '-' ∉ x.from_user_id.data ∧ '-' ∉ x.to_user_id.data)
    (hm : '-' ∉ m.from_user_id.data ∧ '-' ∉ m.to_user_id.data) :
    msgKey x = msgKey m ↔ sameTriple m x = true := by
  constructor
  · intro h
    have hd := congrArg String.data h
    rw [msgKey_data, msgKey_data] at hd
    obtain ⟨h1, h2⟩ := delim_eq_split '-' _ _ _ _ hx.1 hm.1 hd
    obtain ⟨h3, h4⟩ := delim_eq_split '-' _ _ _ _ hx.2 hm.2 h2
    have hf : x.from_user_id = m.from_user_id := String.ext h1
    have ht : x.to_user_id = m.to_user_id := String.ext h3
    have hc : x.created_at = m.created_at := natDigits_inj h4
    simp [sameTriple, hf, ht, hc]
  · intro h
    simp only [sameTriple, Bool.and_eq_true, beq_iff_eq] at h
    obtain ⟨⟨hf, ht⟩, hc⟩ := h
    simp [msgKey, hf, ht, hc]

/-- C2 amended: the merge concatenates (sender shard first), stable-sorts
ascending by created_at, and deduplicates by the hyphen-joined template
string keeping the first occurrence; when every sender and recipient id in
the inputs is hyphen-free this string coincides with the composite key, so
two lists sharing a message merge to exactly one message with that sender,
recipient and timestamp. -/
theorem mergeConversations_one_copy_of_hyphenFree (l1 l2 : List Message) (m : Message)
    (h1 : m ∈ l1) (h2 : m ∈ l2)
    (hall : ∀ x ∈ l1 ++ l2, '-' ∉ x.from_user_id.data ∧ '-' ∉ x.to_user_id.data) :
    (mergeConversations l1 l2).countP (sameTriple m) = 1 := by
  have hm := hall m (List.mem_append_left l2 h1)
  have hmem : ∀ x ∈ dedupMessages (sortByTime (l1 ++ l2)), x ∈ l1 ++ l2 := by
    intro x hx
    exact mem_sortByTime.mp
      ((dedupAux_sublist [] (sortByTime (l1 ++ l2))).mem hx)
  have hcong : (dedupMessages (sortByTime (l1 ++ l2))).countP (sameTriple m) =
      (dedupMessages (sortByTime (l1 ++ l2))).countP
        (fun x => msgKey x == msgKey m) := by
    apply List.countP_congr
    intro x hx
    have hx' := hall x (hmem x hx)
    constructor
    · intro h; exact beq_iff_eq.mpr ((msgKey_eq_iff_triple x m hx' hm).mpr h)
    · intro h
      exact (msgKey_eq_iff_triple x m hx' hm).mp (beq_iff_eq.mp h)
  rw [mergeConversations, hcong, dedupMessages,
    dedupAux_countP_key (msgKey m) (sortByTime (l1 ++ l2)) []]
  have hany : (sortByTime (l1 ++ l2)).any (fun x => msgKey x == msgKey m) = true := by
    rw [List.any_eq_true]
    exact ⟨m, mem_sortByTime.mpr (List.mem_append_left l2 h1), beq_iff_eq.mpr rfl⟩
  simp [hany]

/-- Message used by the C2 amended witness. -/
def c2Plain : Message := ⟨"w", "1", "2", "hi", 7, 1⟩

/-- Witness for the amended C2 at concrete hyphen-free inputs. -/
theorem mergeConversations_one_copy_of_hyphenFree_witness :
    (mergeConversations [c2Plain] [c2Plain]).countP (sameTriple c2Plain) = 1 :=
  mergeConversations_one_copy_of_hyphenFree [c2Plain] [c2Plain] c2Plain
    (by decide) (by decide) (by decide)

/-- One application of the gateway's merge step to a single list: stable
sort ascending by timestamp, then dedup by key (the conversation handler
applies exactly this to the concatenation of the two shard results). -/
def applyMergeStep (l : List Message) : List Message :=
  dedupMessages (sortByTime l)

/-- C9: for result lists with no overlapping dedup keys, the merge is
idempotent and order-stable: applying the merge step to its own output
returns it unchanged, repeating the merge on the same inputs yields the
same list, the output is ascending by timestamp, and its keys are
pairwise distinct (deduplicated). -/
theorem mergeConversations_idempotent (l1 l2 : List Message)
    (hdisj : ∀ x ∈ l1, ∀ y ∈ l2, msgKey x ≠ msgKey y) :
    applyMergeStep (mergeConversations l1 l2) = mergeConversations l1 l2 ∧
    mergeConversations l1 l2 = mergeConversations l1 l2 ∧
    (mergeConversations l1 l2).Pairwise timeLe ∧
    (mergeConversations l1 l2).Pairwise (fun a b => msgKey a ≠ msgKey b) := by
  have hsorted : (mergeConversations l1 l2).Pairwise timeLe :=
    (pairwise_sortByTime (l1 ++ l2)).sublist
      (dedupAux_sublist [] (sortByTime (l1 ++ l2)))
  have hkeys : (mergeConversations l1 l2).Pairwise (fun a b => msgKey a ≠ msgKey b) :=
    dedupAux_keys_pairwise (sortByTime (l1 ++ l2)) []
  refine ⟨?_, rfl, hsorted, hkeys⟩
  rw [applyMergeStep, sortByTime_eq_self _ hsorted, dedupMessages,
    dedupAux_eq_self _ [] hkeys (by intro x _; simp)]

/-- First message of the C9 witness inputs. -/
def c9Left : Message := ⟨"p", "1", "2", "hello", 3, 1⟩

/-- Second message of the C9 witness inputs. -/
def c9Right : Message := ⟨"q", "2", "1", "hi back", 8, 2⟩

/-- Witness for C9 at concrete non-overlapping result lists. -/
theorem mergeConversations_idempotent_witness :
    applyMergeStep (mergeConversations [c9Left] [c9Right]) =
      mergeConversations [c9Left] [c9Right] ∧
    mergeConversations [c9Left] [c9Right] = mergeConversations [c9Left] [c9Right] ∧
    (mergeConversations [c9Left] [c9Right]).Pairwise timeLe ∧
    (mergeConversations [c9Left] [c9Right]).Pairwise
      (fun a b => msgKey a ≠ msgKey b) :=
  mergeConversations_idempotent [c9Left] [c9Right] (by decide)

/-- A shard's health entry in the gateway's shardHealth map. -/
structure Health where
  healthy : Bool
  failedAttempts : Nat
  lastChecked : Nat
deriving DecidableEq, Repr

/-- The gateway's shardHealth map, newest binding first. -/
abbrev HealthMap := List (Nat × Health)

/-- Look up a shard's health entry. -/
def lookupHealth (hm : HealthMap) (i : Nat) : Option Health :=
  match hm.find? (fun p => p.1 == i) with
  | some p => some p.2
  | none => none

/-- Overwrite a shard's health entry (shardHealth.set). -/
def setHealth (hm : HealthMap) (i : Nat) (h : Health) : HealthMap :=
  (i, h) :: hm

/-- shardHealth.get(id)?.failedAttempts || 0. -/
def failedAttemptsOf (hm : HealthMap) (i : Nat) : Nat :=
  match lookupHealth hm i with
  | some h => h.failedAttempts
  | none => 0

/-- Try each url in order, returning the first successful response; the
network maps each url to an optional response (none is error/timeout). -/
def attemptUrls {α : Type} (net : String → Option α) : List String → Option α
  | [] => none
  | u :: rest =>
    match net u with
    | some r => some r
    | none => attemptUrls net rest

/-- makeShardRequest from src/gateway/server.js: try primary then backup;
on any success mark the shard healthy with zero failures; if both fail,
mark it unhealthy, bump its failure count, and throw. -/
def makeShardRequest {α : Type} (net : String → Option α) (sh : ShardDesc)
    (now : Nat) (hm : HealthMap) : Except String α × HealthMap :=
  match attemptUrls net [sh.primary, sh.backup] with
  | some r => (Except.ok r, setHealth hm sh.id ⟨true, 0, now⟩)
  | none =>
    (Except.error ("Both primary and backup shards failed for shard " ++ natStr sh.id),
     setHealth hm sh.id ⟨false, failedAttemptsOf hm sh.id + 1, now⟩)

/-- Outcome of an HTTP route handler: a JSON value or a status and error. -/
inductive HttpResult (α : Type) where
  | ok (value : α)
  | error (status : Nat) (message : String)
deriving DecidableEq, Repr

/-- GET /api/conversations/:userId/:otherUserId on the gateway: query the
user's shard, query the other user's shard when different, then merge;
any makeShardRequest failure is caught by the surrounding try and turned
into a 503 response for the whole request. -/
def conversationHandler (net : String → Option (List Message))
    (userId otherUserId : String) (now : Nat) (hm : HealthMap) :
    HttpResult (List Message × List Nat) × HealthMap :=
  match getShardForUser userId, getShardForUser otherUserId with
  | some us, some os =>
    (match makeShardRequest net us now hm with
     | (Except.error e, hm1) => (HttpResult.error 503 e, hm1)
     | (Except.ok msgs1, hm1) =>
       if os.id == us.id then
         (HttpResult.ok (mergeConversations msgs1 [], [us.id]), hm1)
       else
         match makeShardRequest net os now hm1 with
         | (Except.error e, hm2) => (HttpResult.error 503 e, hm2)
         | (Except.ok msgs2, hm2) =>
           (HttpResult.ok (mergeConversations msgs1 msgs2, [us.id, os.id]), hm2))
  | _, _ => (HttpResult.error 503 "shard lookup failed", hm)

/-- POST /api/messages on the gateway: reject missing or empty fields with
a 400, route by the sender's shard via makeShardRequest, and turn a
thrown failure into a 503 response. -/
def sendMessageHandler (net : String → Option Message)
    (fromId toId content : Option String) (now : Nat) (hm : HealthMap) :
    HttpResult Message × HealthMap :=
  match fromId, toId, content with
  | some f, some t, some c =>
    if f = "" ∨ t = "" ∨ c = "" then
      (HttpResult.error 400 "Missing required fields", hm)
    else
      match getShardForUser f with
      | some sh =>
        (match makeShardRequest net sh now hm with
         | (Except.ok r, hm') => (HttpResult.ok r, hm')
         | (Except.error e, hm') => (HttpResult.error 503 e, hm'))
      | none => (HttpResult.error 503 "shard lookup failed", hm)
  | _, _, _ => (HttpResult.error 400 "Missing required fields", hm)

/-- C5: makeShardRequest tries the primary endpoint first and the backup on
failure; any success resets the shard's health entry to healthy with zero
failures; when both fail the entry becomes unhealthy with the failure count
incremented by one and the request errors, which the message route turns
into a 503 service-unavailable response. -/
theorem makeShardRequest_failover_spec {α : Type} (net : String → Option α)
    (sh : ShardDesc) (now : Nat) (hm : HealthMap)
    (netM : String → Option Message) (f t c : String) (sh2 : ShardDesc) :
    (makeShardRequest net sh now hm =
      match net sh.primary with
      | some r => (Except.ok r, setHealth hm sh.id ⟨true, 0, now⟩)
      | none =>
        match net sh.backup with
        | some r => (Except.ok r, setHealth hm sh.id ⟨true, 0, now⟩)
        | none =>
          (Except.error
            ("Both primary and backup shards failed for shard " ++ natStr sh.id),
           setHealth hm sh.id ⟨false, failedAttemptsOf hm sh.id + 1, now⟩)) ∧
    (getShardForUser f = some sh2 → f ≠ "" → t ≠ "" → c ≠ "" →
      netM sh2.primary = none → netM sh2.backup = none →
      sendMessageHandler netM (some f) (some t) (some c) now hm =
        (HttpResult.error 503
          ("Both primary and backup shards failed for shard " ++ natStr sh2.id),
         setHealth hm sh2.id ⟨false, failedAttemptsOf hm sh2.id + 1, now⟩)) := by
  constructor
  · cases hp : net sh.primary with
    | some r => simp [makeShardRequest, attemptUrls, hp]
    | none =>
      cases hb : net sh.backup with
      | some r => simp [makeShardRequest, attemptUrls, hp, hb]
      | none => simp [makeShardRequest, attemptUrls, hp, hb]
  · intro hsh hf ht hc hp hb
    simp [sendMessageHandler, hf, ht, hc, hsh, makeShardRequest, attemptUrls, hp, hb]

/-- Witness for C5: both endpoints of shard 1 down. -/
theorem makeShardRequest_failover_spec_witness :
    makeShardRequest (fun _ => (none : Option Message))
      ⟨1, "http://shard-1:4001", "http://shard-1-backup:4001"⟩ 0 [] =
      (Except.error "Both primary and backup shards failed for shard 1",
       [(1, ⟨false, 1, 0⟩)]) ∧
    sendMessageHandler (fun _ => none) (some "1") (some "2") (some "hi") 0 [] =
      (HttpResult.error 503 "Both primary and backup shards failed for shard 1",
       [(1, ⟨false, 1, 0⟩)]) := by
  have h := makeShardRequest_failover_spec (fun _ => (none : Option Message))
    ⟨1, "http://shard-1:4001", "http://shard-1-backup:4001"⟩ 0 []
    (fun _ => none) "1" "2" "hi"
    ⟨1, "http://shard-1:4001", "http://shard-1-backup:4001"⟩
  refine ⟨h.1.trans rfl, (h.2 (by decide) (by decide) (by decide) (by decide)
    rfl rfl).trans rfl⟩

/-- Message held by shard 1 in the C3 scenario. -/
def c3Msg : Message := ⟨"m1", "1", "2", "hello", 4, 1⟩

/-- Network for the C3 scenario: shard 1's primary answers the
conversation query, every other endpoint (including both of shard 2's)
is unreachable. -/
def c3Net : String → Option (List Message) := fun u =>
  if u = "http://shard-1:4001" then some [c3Msg] else none

/-- C3 counterexample: users "1" and "2" live on different shards; shard 1
is reachable and returns a message, shard 2 is entirely down, yet the
conversation request does not degrade to shard 1's messages — the whole
request fails with a 503, because both sub-queries sit inside one
try/catch with no per-shard fallback to an empty result. -/
theorem conversationHandler_one_shard_down_503 :
    c3Net "http://shard-1:4001" = some [c3Msg] ∧
    c3Net "http://shard-2:4002" = none ∧
    c3Net "http://shard-2-backup:4002" = none ∧
    (conversationHandler c3Net "1" "2" 0 []).1 =
      HttpResult.error 503 "Both primary and backup shards failed for shard 2" := by
  refine ⟨by decide, by decide, by decide, ?_⟩
  rfl

/-- C3 amended: when either sub-query of a cross-shard conversation read
fails on both its endpoints, the gateway does not substitute an empty
result for that shard: the whole request fails with a 503
service-unavailable error. -/
theorem conversationHandler_subquery_failure_fails_request
    (net : String → Option (List Message)) (uid oid : String) (now : Nat)
    (hm : HealthMap) (us os : ShardDesc)
    (h1 : getShardForUser uid = some us) (h2 : getShardForUser oid = some os)
    (hfail : (net us.primary = none ∧ net us.backup = none) ∨
      (os.id ≠ us.id ∧ (attemptUrls net [us.primary, us.backup]).isSome ∧
        net os.primary = none ∧ net os.backup = none)) :
    ∃ e hm', conversationHandler net uid oid now hm =
      (HttpResult.error 503 e, hm') := by
  rcases hfail with ⟨hp, hb⟩ | ⟨hne, hsome, hp2, hb2⟩
  · have heq : conversationHandler net uid oid now hm =
        (HttpResult.error 503
          ("Both primary and backup shards failed for shard " ++ natStr us.id),
         setHealth hm us.id ⟨false, failedAttemptsOf hm us.id + 1, now⟩) := by
      simp [conversationHandler, h1, h2, makeShardRequest, attemptUrls, hp, hb]
    exact ⟨_, _, heq⟩
  · rw [Option.isSome_iff_exists] at hsome
    obtain ⟨r, hr⟩ := hsome
    have hbeq : (os.id == us.id) = false := beq_eq_false_iff_ne.mpr hne
    have heq : conversationHandler net uid oid now hm =
        (HttpResult.error 503
          ("Both primary and backup shards failed for shard " ++ natStr os.id),
         setHealth (setHealth hm us.id ⟨true, 0, now⟩) os.id
           ⟨false, failedAttemptsOf (setHealth hm us.id ⟨true, 0, now⟩) os.id + 1,
            now⟩) := by
      have hmk : makeShardRequest net us now hm =
          (Except.ok r, setHealth hm us.id ⟨true, 0, now⟩) := by
        unfold makeShardRequest
        rw [hr]
      simp only [conversationHandler, h1, h2, hmk, hbeq, Bool.false_eq_true,
        if_false]
      simp [makeShardRequest, attemptUrls, hp2, hb2]
    exact ⟨_, _, heq⟩

/-- Witness for the amended C3: shard 1 up with a message, shard 2 down. -/
theorem conversationHandler_subquery_failure_witness :
    ∃ e hm', conversationHandler c3Net "1" "2" 0 [] =
      (HttpResult.error 503 e, hm') :=
  conversationHandler_subquery_failure_fails_request c3Net "1" "2" 0 []
    ⟨1, "http://shard-1:4001", "http://shard-1-backup:4001"⟩
    ⟨2, "http://shard-2:4002", "http://shard-2-backup:4002"⟩
    (by decide) (by decide)
    (Or.inr ⟨by decide, by decide, by decide, by decide⟩)

/-- C6 counterexample: the non-numeric user id "abc" does not fail fast
with a validation error — parseInt yields NaN, NaN % 3 is NaN, the ||
fallback maps it to SHARDS.length, and the id silently resolves to the
descriptor of shard 3. -/
theorem getShardForUser_nonNumeric_cex :
    parseIntJS "abc" = none ∧
    getShardForUser "abc" =
      some ⟨3, "http://shard-3:4003", "http://shard-3-backup:4003"⟩ := by
  decide

/-- C6 amended: every user id that does not parse as an integer is
silently mapped to the last shard (id SHARDS.length = 3) instead of being
rejected with a validation error. -/
theorem getShardForUser_nonNumeric_silently_maps (s : String)
    (h : parseIntJS s = none) :
    getShardForUser s =
      some ⟨3, "http://shard-3:4003", "http://shard-3-backup:4003"⟩ := by
  unfold getShardForUser shardIdOf
  rw [h]
  decide

/-- Witness for the amended C6 at the concrete id "abc". -/
theorem getShardForUser_nonNumeric_silently_maps_witness :
    getShardForUser "abc" =
      some ⟨3, "http://shard-3:4003", "http://shard-3-backup:4003"⟩ :=
  getShardForUser_nonNumeric_silently_maps "abc" (by decide)

/-- The redis cache of a shard node, modelled as an association list from
key to a stored list of messages; a fresh binding shadows older ones and
delete removes every binding of the key. -/
abbrev Cache := List (String × List Message)

/-- redisClient.get: first binding of the key, if any. -/
def cacheGet (c : Cache) (k : String) : Option (List Message) :=
  match c.find? (fun p => p.1 == k) with
  | some p => some p.2
  | none => none

/-- redisClient.setEx: bind the key to a value (TTL not modelled). -/
def cacheSet (c : Cache) (k : String) (v : List Message) : Cache :=
  (k, v) :: c

/-- redisClient.del: drop every binding of the key. -/
def cacheDel (c : Cache) (k : String) : Cache :=
  c.filter (fun p => p.1 != k)

/-- redisClient.lPush: prepend a message to the list stored at the key. -/
def cacheLPush (c : Cache) (k : String) (m : Message) : Cache :=
  cacheSet c k (m :: (cacheGet c k).getD [])

/-- State of one shard node: the primary store's messages table and the
redis cache. -/
structure ShardState where
  store : List Message
  cache : Cache
deriving DecidableEq, Repr

/-- Conversation cache key conv:userId:otherUserId. -/
def convKey (userId otherUserId : String) : String :=
  "conv:" ++ userId ++ ":" ++ otherUserId

/-- POST /api/messages on a shard node: insert the new message into the
store, lPush it onto the msg:from:to cache list, and notify the recipient
if connected; no conversation cache key is deleted on this path. -/
def httpSendMessage (st : ShardState) (mid : String) (now sid : Nat)
    (f t content : String) : ShardState × Message :=
  let msg : Message := ⟨mid, f, t, content, now, sid⟩
  (⟨st.store ++ [msg], cacheLPush st.cache ("msg:" ++ f ++ ":" ++ t) msg⟩, msg)

/-- The send_message path of the websocket handler: insert the new message
into the store, then delete both conversation cache keys conv:from:to and
conv:to:from. -/
def wsSendMessage (st : ShardState) (mid : String) (now sid : Nat)
    (f t content : String) : ShardState × Message :=
  let msg : Message := ⟨mid, f, t, content, now, sid⟩
  (⟨st.store ++ [msg], cacheDel (cacheDel st.cache (convKey f t)) (convKey t f)⟩,
   msg)

/-- The SQL conversation query: both directions between the two users,
ordered ascending by created_at, limited. -/
def storeConversation (store : List Message) (uid oid : String) (lim : Nat) :
    List Message :=
  (sortByTime (store.filter (fun m =>
    (m.from_user_id == uid && m.to_user_id == oid) ||
    (m.from_user_id == oid && m.to_user_id == uid)))).take lim

/-- GET /api/conversations/:userId/:otherUserId on a shard node:
cache-aside on the direction-sensitive key conv:userId:otherUserId; on a
miss, query the store and cache the result. -/
def conversationRead (st : ShardState) (uid oid : String) (lim : Nat) :
    ShardState × List Message :=
  let key := convKey uid oid
  match cacheGet st.cache key with
  | some v => (st, v)
  | none =>
    let msgs := storeConversation st.store uid oid lim
    (⟨st.store, cacheSet st.cache key msgs⟩, msgs)

/-- Empty conversation result cached under conv:1:2 in the C4 scenario. -/
def c4Cache : Cache := [(convKey "1" "2", [])]

/-- C4 counterexample: with an empty conversation for users 1 and 2 cached,
an HTTP send of a new message from 1 to 2 persists the message but deletes
neither conv:1:2 nor conv:2:1, so a conversation read for (1, 2) within the
TTL window still hits the stale cached empty result and does not contain
the new message. -/
theorem httpSend_leaves_conversation_cache_stale :
    (cacheGet c4Cache (convKey "1" "2") = some [] ∧
     cacheGet ((httpSendMessage ⟨[], c4Cache⟩ "m9" 10 1 "1" "2" "hi").1).cache
       (convKey "1" "2") = some [] ∧
     cacheGet ((httpSendMessage ⟨[], c4Cache⟩ "m9" 10 1 "1" "2" "hi").1).cache
       (convKey "2" "1") = cacheGet c4Cache (convKey "2" "1")) ∧
    (conversationRead (httpSendMessage ⟨[], c4Cache⟩ "m9" 10 1 "1" "2" "hi").1
        "1" "2" 100).2 = [] ∧
    (httpSendMessage ⟨[], c4Cache⟩ "m9" 10 1 "1" "2" "hi").2 ∉
      (conversationRead (httpSendMessage ⟨[], c4Cache⟩ "m9" 10 1 "1" "2" "hi").1
        "1" "2" 100).2 := by
  decide

/-- Deleting a key removes its binding and leaves every other key alone. -/
theorem cacheGet_cacheDel (c : Cache) (k k' : String) :
    cacheGet (cacheDel c k') k = if k = k' then none else cacheGet c k := by
  induction c with
  | nil =>
    by_cases h : k = k' <;> simp [cacheDel, cacheGet, h]
  | cons p ps ih =>
    by_cases hp : p.1 = k'
    · have h1 : (p.1 != k') = false := by
        simp [bne, hp]
      rw [show cacheDel (p :: ps) k' = cacheDel ps k' by
        simp [cacheDel, List.filter_cons, h1]]
      rw [ih]
      by_cases hk : k = k'
      · simp [hk]
      · have h2 : (p.1 == k) = false := beq_eq_false_iff_ne.mpr (by rw [hp]; exact fun he => hk he.symm)
        simp [hk, cacheGet, List.find?_cons, h2]
    · have h1 : (p.1 != k') = true := bne_iff_ne.mpr hp
      rw [show cacheDel (p :: ps) k' = p :: cacheDel ps k' by
        simp [cacheDel, List.filter_cons, h1]]
      by_cases hpk : p.1 = k
      · have h2 : (p.1 == k) = true := beq_iff_eq.mpr hpk
        have hk : ¬ k = k' := by rw [← hpk]; exact fun he => hp (hpk ▸ he)
        simp [cacheGet, List.find?_cons, h2, hk]
      · have h2 : (p.1 == k) = false := beq_eq_false_iff_ne.mpr hpk
        simp only [cacheGet, List.find?_cons, h2]
        rw [show (match List.find? (fun p => p.1 == k) (cacheDel ps k') with
            | some p => some p.2
            | none => none) = cacheGet (cacheDel ps k') k from rfl, ih]
        by_cases hk : k = k' <;> simp [hk, cacheGet]

/-- Sorting preserves length. -/
theorem length_sortByTime : ∀ l : List Message,
    (sortByTime l).length = l.length := by
  intro l
  induction l with
  | nil => rfl
  | cons x xs ih =>
    have hins : ∀ (m : Message) (t : List Message),
        (insertByTime m t).length = t.length + 1 := by
      intro m t
      induction t with
      | nil => rfl
      | cons y ys ihy =>
        unfold insertByTime
        by_cases h : m.created_at ≤ y.created_at
        · simp [h]
        · simp [h, ihy]
    rw [sortByTime, hins, ih, List.length_cons]

/-- C4 amended: only the websocket send path invalidates: after a ws
send_message both conversation cache keys for the pair are deleted, so a
conversation read for (from, to) misses the cache and returns the store
query result, which contains the new message whenever the store fits
within the query limit. -/
theorem wsSend_invalidates_conversation_cache (st : ShardState) (mid : String)
    (now sid : Nat) (f t content : String) (lim : Nat)
    (hlim : st.store.length < lim) :
    cacheGet ((wsSendMessage st mid now sid f t content).1).cache
      (convKey f t) = none ∧
    cacheGet ((wsSendMessage st mid now sid f t content).1).cache
      (convKey t f) = none ∧
    (wsSendMessage st mid now sid f t content).2 ∈
      (conversationRead (wsSendMessage st mid now sid f t content).1
        f t lim).2 := by
  set msg : Message := ⟨mid, f, t, content, now, sid⟩ with hmsg
  have hcache : (wsSendMessage st mid now sid f t content).1.cache =
      cacheDel (cacheDel st.cache (convKey f t)) (convKey t f) := rfl
  have hstore : (wsSendMessage st mid now sid f t content).1.store =
      st.store ++ [msg] := rfl
  have hget1 : cacheGet ((wsSendMessage st mid now sid f t content).1).cache
      (convKey f t) = none := by
    rw [hcache, cacheGet_cacheDel, cacheGet_cacheDel]
    by_cases h : convKey f t = convKey t f <;> simp [h]
  have hget2 : cacheGet ((wsSendMessage st mid now sid f t content).1).cache
      (convKey t f) = none := by
    rw [hcache, cacheGet_cacheDel]
    simp
  refine ⟨hget1, hget2, ?_⟩
  have hsnd : (wsSendMessage st mid now sid f t content).2 = msg := rfl
  rw [hsnd]
  unfold conversationRead
  simp only [hget1]
  have hlen : ((st.store ++ [msg]).filter (fun m =>
      (m.from_user_id == f && m.to_user_id == t) ||
      (m.from_user_id == t && m.to_user_id == f))).length ≤ lim := by
    calc ((st.store ++ [msg]).filter _).length ≤ (st.store ++ [msg]).length :=
          List.length_filter_le _ _
      _ = st.store.length + 1 := by simp
      _ ≤ lim := hlim
  rw [storeConversation, hstore, List.take_of_length_le (by rw [length_sortByTime]; exact hlen)]
  rw [mem_sortByTime, List.mem_filter]
  refine ⟨List.mem_append_right _ (List.mem_singleton_self msg), ?_⟩
  simp [hmsg]

/-- Witness for the amended C4 at a concrete cached-empty conversation. -/
theorem wsSend_invalidates_conversation_cache_witness :
    cacheGet ((wsSendMessage ⟨[], [(convKey "1" "2", [])]⟩ "m1" 5 1 "1" "2" "hi").1).cache
      (convKey "1" "2") = none ∧
    cacheGet ((wsSendMessage ⟨[], [(convKey "1" "2", [])]⟩ "m1" 5 1 "1" "2" "hi").1).cache
      (convKey "2" "1") = none ∧
    (wsSendMessage ⟨[], [(convKey "1" "2", [])]⟩ "m1" 5 1 "1" "2" "hi").2 ∈
      (conversationRead (wsSendMessage ⟨[], [(convKey "1" "2", [])]⟩ "m1" 5 1 "1" "2" "hi").1
        "1" "2" 100).2 :=
  wsSend_invalidates_conversation_cache ⟨[], [(convKey "1" "2", [])]⟩ "m1" 5 1
    "1" "2" "hi" 100 (by decide)

/-- The websocket connection registry: user id to channel handle. -/
abbrev Clients := List (String × Nat)

/-- connectedClients.set: bind a user id to a channel. -/
def clientsSet (cs : Clients) (uid : String) (ch : Nat) : Clients :=
  (uid, ch) :: cs

/-- connectedClients.get: first binding of the user id, if any. -/
def clientsGet (cs : Clients) (uid : String) : Option Nat :=
  match cs.find? (fun p => p.1 == uid) with
  | some p => some p.2
  | none => none

/-- A parsed incoming websocket message: a kind tag and the fields the two
known kinds read. -/
structure WsIn where
  type : String
  user_id : String
  from_user_id : String
  to_user_id : String
  content : String
deriving DecidableEq, Repr

/-- An outgoing websocket frame payload. -/
inductive WsOut where
  | registered (userId : String) (shardId : Nat)
  | message (m : Message)
  | messageSent (id : String)
  | errorReply (text : String)
deriving DecidableEq, Repr

/-- The websocket message dispatcher of the shard node: register binds the
sender's channel and acknowledges, send_message persists, invalidates and
notifies; any other kind falls through the if/else-if chain. -/
def wsHandle (st : ShardState) (cs : Clients) (senderCh : Nat) (m : WsIn)
    (mid : String) (now sid : Nat) :
    ShardState × Clients × List (Nat × WsOut) :=
  if m.type = "register" then
    (st, clientsSet cs m.user_id senderCh,
     [(senderCh, WsOut.registered m.user_id sid)])
  else if m.type = "send_message" then
    let res := wsSendMessage st mid now sid m.from_user_id m.to_user_id m.content
    let notif := match clientsGet cs m.to_user_id with
      | some ch => [(ch, WsOut.message res.2)]
      | none => []
    (res.1, cs, notif ++ [(senderCh, WsOut.messageSent mid)])
  else (st, cs, [])

/-- C7 counterexample: a well-formed frame with the unrecognized kind
"bogus" produces no reply at all — the if/else-if chain has no else
branch, so the handler is silent instead of sending an error reply. -/
theorem wsHandle_unknown_kind_silent_cex :
    wsHandle ⟨[], []⟩ [("1", 5)] 7 ⟨"bogus", "", "", "", ""⟩ "m1" 0 1 =
      (⟨[], []⟩, [("1", 5)], []) := by
  decide

/-- C7 amended: an incoming frame whose kind is neither register nor
send_message is silently ignored: the store, cache and connection registry
are unchanged and no frame — in particular no error reply — is sent. -/
theorem wsHandle_unknown_kind_no_reply (st : ShardState) (cs : Clients)
    (senderCh : Nat) (m : WsIn) (mid : String) (now sid : Nat)
    (h1 : m.type ≠ "register") (h2 : m.type ≠ "send_message") :
    wsHandle st cs senderCh m mid now sid = (st, cs, []) := by
  unfold wsHandle
  simp [h1, h2]

/-- Witness for the amended C7 at a concrete unknown kind. -/
theorem wsHandle_unknown_kind_no_reply_witness :
    wsHandle ⟨[], []⟩ [] 3 ⟨"typo", "u", "a", "b", "c"⟩ "m2" 9 2 =
      (⟨[], []⟩, [], []) :=
  wsHandle_unknown_kind_no_reply ⟨[], []⟩ [] 3 ⟨"typo", "u", "a", "b", "c"⟩
    "m2" 9 2 (by decide) (by decide)

/-- Message between the colon-named users of the C10 scenario. -/
def c10Msg : Message := ⟨"c1", ":", "::", "hey", 1, 1⟩

/-- C10 counterexample: for the distinct user ids ":" and "::" the two
direction keys coincide, so the entry populated by conversation(":", "::")
is read by the subsequent conversation("::", ":"): the second call is a
cache hit on the first call's entry and leaves the state unchanged. -/
theorem conversationRead_colon_key_collision_cex :
    (":" : String) ≠ "::" ∧
    convKey ":" "::" = convKey "::" ":" ∧
    cacheGet ((conversationRead ⟨[c10Msg], []⟩ ":" "::" 100).1).cache
      (convKey "::" ":") = some [c10Msg] ∧
    (conversationRead ((conversationRead ⟨[c10Msg], []⟩ ":" "::" 100).1)
        "::" ":" 100).1 =
      (conversationRead ⟨[c10Msg], []⟩ ":" "::" 100).1 ∧
    (conversationRead ((conversationRead ⟨[c10Msg], []⟩ ":" "::" 100).1)
        "::" ":" 100).2 = [c10Msg] := by
  decide

/-- Setting a key binds it and leaves every other key's lookup alone. -/
theorem cacheGet_cacheSet (c : Cache) (k k' : String) (v : List Message) :
    cacheGet (cacheSet c k' v) k = if k = k' then some v else cacheGet c k := by
  by_cases h : k = k'
  · subst h
    simp [cacheSet, cacheGet, List.find?_cons]
  · have hb : (k' == k) = false := beq_eq_false_iff_ne.mpr (fun he => h he.symm)
    simp [cacheSet, cacheGet, List.find?_cons, hb, h]

/-- A conversation read never changes the store. -/
theorem conversationRead_store (st : ShardState) (uid oid : String) (lim : Nat) :
    (conversationRead st uid oid lim).1.store = st.store := by
  unfold conversationRead
  cases hc : cacheGet st.cache (convKey uid oid) <;> simp [hc]

/-- Two states agreeing on the queried cache key and the store produce the
same conversation read result. -/
theorem conversationRead_same_view (st' st : ShardState) (uid oid : String)
    (lim : Nat)
    (hc : cacheGet st'.cache (convKey uid oid) = cacheGet st.cache (convKey uid oid))
    (hs : st'.store = st.store) :
    (conversationRead st' uid oid lim).2 = (conversationRead st uid oid lim).2 := by
  unfold conversationRead
  simp only [hc, hs]
  cases hcv : cacheGet st.cache (convKey uid oid) <;> simp [hcv]

/-- C10 amended: for distinct user ids that contain no colon, the two
direction keys conv:A:B and conv:B:A are distinct strings, so the cache
entry populated by conversation(A, B) is never read or written by a
subsequent conversation(B, A): the (B, A) entry is untouched by the (A, B)
read, and running conversation(B, A) after conversation(A, B) returns
exactly what it would have returned on the original state. -/
theorem conversationRead_direction_keys_independent (st : ShardState)
    (A B : String) (lim : Nat)
    (hA : ':' ∉ A.data) (hB : ':' ∉ B.data) (hne : A ≠ B) :
    convKey A B ≠ convKey B A ∧
    cacheGet ((conversationRead st A B lim).1).cache (convKey B A) =
      cacheGet st.cache (convKey B A) ∧
    (conversationRead ((conversationRead st A B lim).1) B A lim).2 =
      (conversationRead st B A lim).2 := by
  have hkeys : convKey A B ≠ convKey B A := by
    intro h
    have hd := congrArg String.data h
    have hshape : ∀ (x y : String), (convKey x y).data =
        "conv:".data ++ (x.data ++ ':' :: y.data) := by
      intro x y
      simp [convKey, String.data_append]
    rw [hshape, hshape] at hd
    have hd2 := List.append_cancel_left hd
    obtain ⟨hab, _⟩ := delim_eq_split ':' _ _ _ _ hA hB hd2
    exact hne (String.ext hab)
  have hframe : cacheGet ((conversationRead st A B lim).1).cache (convKey B A) =
      cacheGet st.cache (convKey B A) := by
    unfold conversationRead
    cases hc : cacheGet st.cache (convKey A B) with
    | some v => simp [hc]
    | none =>
      simp only [hc]
      rw [cacheGet_cacheSet]
      have hne2 : ¬ convKey B A = convKey A B := fun h => hkeys h.symm
      simp [hne2]
  refine ⟨hkeys, hframe, ?_⟩
  exact conversationRead_same_view ((conversationRead st A B lim).1) st B A lim
    hframe (conversationRead_store st A B lim)

/-- Witness for the amended C10 at concrete colon-free ids. -/
theorem conversationRead_direction_keys_independent_witness :
    convKey "1" "2" ≠ convKey "2" "1" ∧
    cacheGet ((conversationRead ⟨[], []⟩ "1" "2" 50).1).cache (convKey "2" "1") =
      cacheGet (⟨[], []⟩ : ShardState).cache (convKey "2" "1") ∧
    (conversationRead ((conversationRead ⟨[], []⟩ "1" "2" 50).1) "2" "1" 50).2 =
      (conversationRead ⟨[], []⟩ "2" "1" 50).2 :=
  conversationRead_direction_keys_independent ⟨[], []⟩ "1" "2" 50
    (by decide) (by decide) (by decide)

/-- Effect of ON CONFLICT (id) DO UPDATE SET content = $4 on one backup
row: only the content field changes, and only on an id match. -/
def updContent (m r : Message) : Message :=
  if r.id == m.id then
    ⟨r.id, r.from_user_id, r.to_user_id, m.content, r.created_at, r.shard_id⟩
  else r

/-- The replication upsert of one message into the backup messages table:
insert, or on a conflicting id overwrite the content only. -/
def upsertMessageBackup (backup : List Message) (m : Message) : List Message :=
  if backup.any (fun r => r.id == m.id) then backup.map (updContent m)
  else backup ++ [m]

/-- One replication tick's message loop: upsert each selected recent
message into the backup store in order. -/
def syncMessages (backup recent : List Message) : List Message :=
  recent.foldl upsertMessageBackup backup

/-- The tick's selection of recent messages: created within the last
window, ordered descending by created_at. -/
def recentMessages (primary : List Message) (now window : Nat) : List Message :=
  (sortByTime (primary.filter (fun m => now - window < m.created_at))).reverse

/-- ReplicationManager.syncData restricted to the messages table: select
the recent primary messages and upsert each into the backup store. -/
def syncData (primary backup : List Message) (now : Nat) : List Message :=
  syncMessages backup (recentMessages primary now 60)

/-- Backup lookup by message id. -/
def findRow (l : List Message) (i : String) : Option Message :=
  l.find? (fun r => r.id == i)

/-- The content-only update never changes the id. -/
theorem updContent_id (m r : Message) : (updContent m r).id = r.id := by
  unfold updContent
  split <;> rfl

/-- Row lookup commutes with the content-only update map. -/
theorem findRow_map_updContent (m : Message) (i : String) :
    ∀ l : List Message,
    findRow (l.map (updContent m)) i = (findRow l i).map (updContent m) := by
  intro l
  induction l with
  | nil => rfl
  | cons r rs ih =>
    by_cases h : r.id == i
    · have h' : ((updContent m r).id == i) = true := by rw [updContent_id]; exact h
      simp [findRow, List.find?_cons, h, h'] at ih ⊢
    · have hf : (r.id == i) = false := by
        cases hb : (r.id == i) with
        | true => exact absurd hb h
        | false => rfl
      have h' : ((updContent m r).id == i) = false := by rw [updContent_id]; exact hf
      simp only [findRow, List.map_cons, List.find?_cons, h', hf] at ih ⊢
      exact ih

/-- Row lookup distributes over append. -/
theorem findRow_append (l1 l2 : List Message) (i : String) :
    findRow (l1 ++ l2) i = (findRow l1 i).or (findRow l2 i) :=
  List.find?_append

/-- Upserting on top of an existing row yields that row with at most its
content replaced. -/
theorem findRow_upsert_existing (b : List Message) (m : Message) (i : String)
    (old : Message) (h : findRow b i = some old) :
    findRow (upsertMessageBackup b m) i = some (updContent m old) := by
  unfold upsertMessageBackup
  by_cases hany : b.any (fun r => r.id == m.id) = true
  · simp only [hany, if_true]
    rw [findRow_map_updContent, h]
    rfl
  · have hany' : b.any (fun r => r.id == m.id) = false := by
      cases hb : b.any (fun r => r.id == m.id) with
      | true => exact absurd hb hany
      | false => rfl
    simp only [hany', Bool.false_eq_true, if_false]
    rw [findRow_append, h]
    have hold : old ∈ b := List.mem_of_find?_eq_some h
    have hne : (old.id == m.id) = false := by
      cases hb : (old.id == m.id) with
      | true =>
        rw [List.any_eq_true] at hany
        exact absurd ⟨old, hold, hb⟩ hany
      | false => rfl
    have : updContent m old = old := by
      unfold updContent
      rw [hne]
      rfl
    rw [this]
    rfl

/-- Upserting preserves the presence of any row. -/
theorem findRow_upsert_isSome_mono (b : List Message) (m : Message) (i : String)
    (h : (findRow b i).isSome) : (findRow (upsertMessageBackup b m) i).isSome := by
  rw [Option.isSome_iff_exists] at h
  obtain ⟨old, hold⟩ := h
  rw [findRow_upsert_existing b m i old hold]
  rfl

/-- After upserting a message, its id is present in the backup. -/
theorem findRow_upsert_self_isSome (b : List Message) (m : Message) :
    (findRow (upsertMessageBackup b m) m.id).isSome := by
  unfold upsertMessageBackup
  by_cases hany : b.any (fun r => r.id == m.id) = true
  · simp only [hany, if_true]
    rw [List.any_eq_true] at hany
    obtain ⟨r, hr, hrid⟩ := hany
    have : (findRow b m.id).isSome := by
      rw [findRow, List.find?_isSome]
      exact ⟨r, hr, hrid⟩
    rw [findRow_map_updContent]
    rw [Option.isSome_iff_exists] at this ⊢
    obtain ⟨x, hx⟩ := this
    exact ⟨updContent m x, by rw [hx]; rfl⟩
  · have hany' : b.any (fun r => r.id == m.id) = false := by
      cases hb : b.any (fun r => r.id == m.id) with
      | true => exact absurd hb hany
      | false => rfl
    simp only [hany', Bool.false_eq_true, if_false]
    rw [findRow_append]
    have h1 : findRow b m.id = none := by
      rw [findRow, List.find?_eq_none]
      intro r hr hbe
      rw [List.any_eq_true] at hany
      exact hany ⟨r, hr, hbe⟩
    rw [h1]
    simp [findRow, List.find?_cons]

/-- The tick's message loop preserves the presence of any row. -/
theorem syncMessages_isSome_mono : ∀ (ms b : List Message) (i : String),
    (findRow b i).isSome → (findRow (syncMessages b ms) i).isSome := by
  intro ms
  induction ms with
  | nil => intro b i h; exact h
  | cons m rest ih =>
    intro b i h
    exact ih (upsertMessageBackup b m) i (findRow_upsert_isSome_mono b m i h)

/-- Rows present before the tick keep their identity fields; only the
content may change. -/
theorem syncMessages_preserves_row : ∀ (recent backup : List Message)
    (i : String) (old : Message), findRow backup i = some old →
    ∃ c, findRow (syncMessages backup recent) i =
      some ⟨old.id, old.from_user_id, old.to_user_id, c, old.created_at,
        old.shard_id⟩ := by
  intro recent
  induction recent with
  | nil =>
    intro backup i old h
    exact ⟨old.content, h⟩
  | cons m rest ih =>
    intro backup i old h
    have h1 := findRow_upsert_existing backup m i old h
    obtain ⟨c, hc⟩ := ih (upsertMessageBackup backup m) i (updContent m old) h1
    refine ⟨c, ?_⟩
    have hfold : syncMessages backup (m :: rest) =
        syncMessages (upsertMessageBackup backup m) rest := rfl
    rw [hfold, hc]
    unfold updContent
    split <;> rfl

/-- Every message processed by the tick ends up present in the backup. -/
theorem syncMessages_contains : ∀ (recent backup : List Message),
    ∀ m ∈ recent, (findRow (syncMessages backup recent) m.id).isSome := by
  intro recent
  induction recent with
  | nil => intro backup m hm; cases hm
  | cons x rest ih =>
    intro backup m hm
    rcases List.mem_cons.mp hm with rfl | hmem
    · exact syncMessages_isSome_mono rest (upsertMessageBackup backup m) m.id
        (findRow_upsert_self_isSome backup m)
    · exact ih (upsertMessageBackup backup x) m hmem

/-- C8: on a replication tick, every selected recent message is upserted
into the backup keyed by its id (its id is present afterwards), and any
backup row whose id already existed keeps its from_user_id, to_user_id,
created_at and shard_id unchanged — at most its content is overwritten. -/
theorem replication_upsert_preserves_identity (primary backup : List Message)
    (now : Nat) :
    (∀ i old, findRow backup i = some old →
      ∃ c, findRow (syncData primary backup now) i =
        some ⟨old.id, old.from_user_id, old.to_user_id, c, old.created_at,
          old.shard_id⟩) ∧
    (∀ m ∈ recentMessages primary now 60,
      (findRow (syncData primary backup now) m.id).isSome) := by
  constructor
  · intro i old h
    exact syncMessages_preserves_row (recentMessages primary now 60) backup i old h
  · intro m hm
    exact syncMessages_contains (recentMessages primary now 60) backup m hm

/-- Witness for C8: a backup row whose id conflicts with a fresh primary
message with different identity fields. -/
theorem replication_upsert_preserves_identity_witness :
    (∃ c, findRow (syncData [⟨"x", "9", "8", "new", 100, 1⟩]
        [⟨"x", "1", "2", "old", 50, 1⟩] 120) "x" =
      some ⟨"x", "1", "2", c, 50, 1⟩) ∧
    (findRow (syncData [⟨"x", "9", "8", "new", 100, 1⟩]
        [⟨"x", "1", "2", "old", 50, 1⟩] 120) "x").isSome :=
  ⟨(replication_upsert_preserves_identity [⟨"x", "9", "8", "new", 100, 1⟩]
      [⟨"x", "1", "2", "old", 50, 1⟩] 120).1 "x" ⟨"x", "1", "2", "old", 50, 1⟩
      (by decide),
   (replication_upsert_preserves_identity [⟨"x", "9", "8", "new", 100, 1⟩]
      [⟨"x", "1", "2", "old", 50, 1⟩] 120).2 ⟨"x", "9", "8", "new", 100, 1⟩
      (by decide)⟩

end WhatsappWorkshop
